import Mathlib

/-!
# Verification of the avatar front-end's core subsystems

A shallow embedding, in Lean 4, of the algorithmic core of the avatar
video front-end: the chroma-key compositor (`applyChromaKey` in
`AvatarVideoStream`), the avatar phase controller (the React component's
state and event handlers), and the assistant-response sanitizer
(`sanitizeAssistantResponse` in `openai-assistant.ts`), together with
theorems settling the specified properties of each.

Numbers that the source manipulates as JavaScript floats are modelled as
exact rationals (`ℚ`); machine strings are modelled as `List Char`;
the browser's per-event-loop-turn handlers become functions from a
controller state to a new state plus a list of observable effects.
-/

namespace Heygen

/-! ## Chroma-key compositor

`applyChromaKey` walks the RGBA pixel data of one frame, converts each
pixel to HSV exactly as the source does, and masks matching pixels to
opaque black.  Pixels are quadruples of channel values; a frame is the
pixel list in iteration order (the classification is per-pixel, so the
rectangular layout is irrelevant).
-/

structure Pixel where
  red : ℕ
  green : ℕ
  blue : ℕ
  alpha : ℕ
deriving DecidableEq, Repr, Inhabited

/-- The four user-adjustable chroma-key options (the `options` argument of
`applyChromaKey`). -/
structure ChromaKeyConfig where
  minHue : ℚ
  maxHue : ℚ
  minSaturation : ℚ
  threshold : ℚ
deriving DecidableEq, Repr

/-- Truncation toward zero, the rounding JavaScript's `%` operator applies
to the quotient. -/
def truncQ (q : ℚ) : ℤ := if 0 ≤ q then ⌊q⌋ else -⌊-q⌋

/-- JavaScript's `%` on numbers: `x - y * trunc (x / y)`. -/
def jsRem (x y : ℚ) : ℚ := x - y * truncQ (x / y)

/-- The RGB → HSV conversion inlined in `applyChromaKey` (lines 52-64 of
the component): hue is computed sector-wise, scaled by 60, rounded with
`Math.round`, and shifted into [0,360); saturation is `delta / max`
(0 for black); value is `max / 255`. -/
def hsvOf (r g b : ℕ) : ℤ × ℚ × ℚ :=
  let M : ℕ := max r (max g b)
  let m : ℕ := min r (min g b)
  let delta : ℕ := M - m
  let h0 : ℚ :=
    if delta = 0 then 0
    else if M = r then jsRem (((g : ℚ) - (b : ℚ)) / (delta : ℚ)) 6
    else if M = g then ((b : ℚ) - (r : ℚ)) / (delta : ℚ) + 2
    else ((r : ℚ) - (g : ℚ)) / (delta : ℚ) + 4
  let h1 : ℤ := round (h0 * 60)
  let h : ℤ := if h1 < 0 then h1 + 360 else h1
  let s : ℚ := if M = 0 then 0 else (delta : ℚ) / (M : ℚ)
  let v : ℚ := (M : ℚ) / 255
  (h, s, v)

/-- One pixel of `applyChromaKey`'s loop body: the `isGreen` test and the
masking write.  The conjunction is the source's `&&` chain verbatim. -/
def applyChromaKeyPixel (o : ChromaKeyConfig) (p : Pixel) : Pixel :=
  let t := hsvOf p.red p.green p.blue
  if ((t.1 : ℚ) ≥ o.minHue ∧ (t.1 : ℚ) ≤ o.maxHue ∧ t.2.1 > o.minSaturation ∧
      t.2.2 > 15 / 100 ∧ (p.green : ℚ) > (p.red : ℚ) * o.threshold ∧
      (p.green : ℚ) > (p.blue : ℚ) * o.threshold)
  then { red := 0, green := 0, blue := 0, alpha := 255 }
  else p

/-- The whole frame: the source's `for` loop over `data` in steps of 4,
i.e. a map over the pixel sequence. -/
def applyChromaKey (o : ChromaKeyConfig) (frame : List Pixel) : List Pixel :=
  frame.map (applyChromaKeyPixel o)

/-- A pixel's hue as the compositor computes it. -/
def hue (p : Pixel) : ℤ := (hsvOf p.red p.green p.blue).1

/-- A pixel's saturation as the compositor computes it. -/
def saturation (p : Pixel) : ℚ := (hsvOf p.red p.green p.blue).2.1

/-- A pixel's value (brightness) as the compositor computes it. -/
def value (p : Pixel) : ℚ := (hsvOf p.red p.green p.blue).2.2

/-- The spec's five-condition background predicate: hue within
[minHue, maxHue], saturation above minSaturation, value above the fixed
0.15, and green dominating red and blue by the threshold ratio. -/
def backgroundPixel (o : ChromaKeyConfig) (p : Pixel) : Prop :=
  o.minHue ≤ (hue p : ℚ) ∧ (hue p : ℚ) ≤ o.maxHue ∧
  o.minSaturation < saturation p ∧ (15 : ℚ) / 100 < value p ∧
  (p.red : ℚ) * o.threshold < (p.green : ℚ) ∧
  (p.blue : ℚ) * o.threshold < (p.green : ℚ)

instance (o : ChromaKeyConfig) (p : Pixel) : Decidable (backgroundPixel o p) := by
  unfold backgroundPixel
  infer_instance

/-- The loop body is exactly the spec predicate's case split. -/
theorem applyChromaKeyPixel_eq (o : ChromaKeyConfig) (p : Pixel) :
    applyChromaKeyPixel o p =
      if backgroundPixel o p then { red := 0, green := 0, blue := 0, alpha := 255 } else p := by
  unfold applyChromaKeyPixel backgroundPixel hue saturation value
  rfl

def blackOpaque : Pixel := { red := 0, green := 0, blue := 0, alpha := 255 }

/-- C1: for every pixel of every input frame and every `ChromaKeyConfig`,
`applyChromaKey` classifies the pixel as background exactly when the five
conditions hold (hue in [minHue, maxHue], saturation > minSaturation,
value > 0.15, green > red × threshold, green > blue × threshold); such a
pixel's red, green and blue become 0 and its alpha 255, and a pixel
failing at least one condition is left unchanged. -/
theorem applyChromaKey_background_classification (o : ChromaKeyConfig)
    (frame : List Pixel) (i : ℕ) (hi : i < frame.length) :
    (applyChromaKey o frame).length = frame.length ∧
    (backgroundPixel o (frame.getD i blackOpaque) →
      (applyChromaKey o frame).getD i blackOpaque = blackOpaque) ∧
    (¬ backgroundPixel o (frame.getD i blackOpaque) →
      (applyChromaKey o frame).getD i blackOpaque = frame.getD i blackOpaque) := by
  have hlen : (applyChromaKey o frame).length = frame.length := by
    simp [applyChromaKey]
  have hi' : i < (applyChromaKey o frame).length := by rwa [hlen]
  have hget : (applyChromaKey o frame).getD i blackOpaque =
      applyChromaKeyPixel o (frame.getD i blackOpaque) := by
    rw [List.getD_eq_getElem _ _ hi', List.getD_eq_getElem _ _ hi]
    simp [applyChromaKey]
  refine ⟨hlen, ?_, ?_⟩ <;> intro hbg <;>
    rw [hget, applyChromaKeyPixel_eq]
  · rw [if_pos hbg]; rfl
  · rw [if_neg hbg]

/-- Witness for C1 at the default configuration and a one-pixel frame of
saturated green (30, 220, 40, 9): the pixel is classified background and
masked to opaque black. -/
theorem applyChromaKey_background_classification_witness :
    (applyChromaKey { minHue := 103, maxHue := 337, minSaturation := 3/4, threshold := 1 }
        [{ red := 30, green := 220, blue := 40, alpha := 9 }]).getD 0 blackOpaque =
      blackOpaque :=
  (applyChromaKey_background_classification
      { minHue := 103, maxHue := 337, minSaturation := 3/4, threshold := 1 }
      [{ red := 30, green := 220, blue := 40, alpha := 9 }] 0 (by norm_num)).2.1
    (by
      unfold backgroundPixel hue saturation value
      norm_num [hsvOf, jsRem, truncQ, round_eq])

/-- C10: when `minHue > maxHue` the two hue conditions are jointly
unsatisfiable, so no pixel is classified background and `applyChromaKey`
leaves every frame unchanged — the hue band is empty, not wrap-around. -/
theorem applyChromaKey_empty_band_of_minHue_gt_maxHue (o : ChromaKeyConfig)
    (frame : List Pixel) (h : o.maxHue < o.minHue) :
    applyChromaKey o frame = frame := by
  have hpix : ∀ p : Pixel, applyChromaKeyPixel o p = p := by
    intro p
    rw [applyChromaKeyPixel_eq, if_neg]
    rintro ⟨h1, h2, -⟩
    exact absurd (le_trans h1 h2) (not_le.mpr h)
  induction frame with
  | nil => rfl
  | cons p t ih =>
      simp only [applyChromaKey, List.map_cons] at ih ⊢
      rw [hpix p, ih]

/-- Witness for C10: with minHue = 200 > maxHue = 100, a frame holding a
pure green pixel passes through unchanged. -/
theorem applyChromaKey_empty_band_witness :
    applyChromaKey { minHue := 200, maxHue := 100, minSaturation := 3/4, threshold := 1 }
        [{ red := 0, green := 255, blue := 0, alpha := 0 }] =
      [{ red := 0, green := 255, blue := 0, alpha := 0 }] :=
  applyChromaKey_empty_band_of_minHue_gt_maxHue
    { minHue := 200, maxHue := 100, minSaturation := 3/4, threshold := 1 }
    [{ red := 0, green := 255, blue := 0, alpha := 0 }] (by norm_num)

/-! ## Avatar phase controller

The `AvatarVideoStream` component's state machine.  The component's
`useState`/`useRef` cells become the fields of `Ctrl`; each browser
event-loop turn that runs one of its handlers becomes one application of
`step`.  Calls into the outside world (the streaming-avatar SDK, the
conversational backend, `localStorage` writes, video elements) are
recorded as `Effect`s; completions of awaited asynchronous calls re-enter
the machine as their own events, as do `setTimeout`/`setInterval`
callbacks.  Live timers are carried as lists of identifiers so that the
JavaScript behaviour — a timeout keeps running when its ref is merely
overwritten, and fires only if never cleared — is preserved.
-/

inductive Phase where
  | idle
  | to_live
  | stream
  | to_idle
deriving DecidableEq, Repr

/-- The queued `{ question, response }` pair held until delivery. -/
structure PendingResp where
  question : String
  response : String
deriving DecidableEq, Repr

/-- Observable actions on the world, in the order the handlers perform
them. -/
inductive Effect where
  | beginSessionInit
  | queryBackend (q : String)
  | playToLiveFromZero
  | playToIdleFromZero
  | restartIdleFromZero
  | attachStreamToVideo
  | markSpeakingStarted
  | markSpeakingEnded
  | appendChatHistory (q r : String)
  | speakPending (text : String)
  | speakDirect (text : String)
  | stopRemoteSession
  | releaseStreamHandle
  | setErrorBanner
deriving DecidableEq, Repr

structure Ctrl where
  phase : Phase
  pendingTransitionToLive : Bool
  pendingResponse : Option PendingResp
  queuedRequests : List String
  directInFlight : ℕ
  avatarSet : Bool
  initialized : Bool
  initInFlight : Bool
  isReady : Bool
  avatarStreamAttached : Bool
  isAvatarStreamReady : Bool
  speakDelays : ℕ
  inactivityCountdown : ℤ
  timeoutLive : List ℕ
  timeoutRefId : Option ℕ
  intervalLive : List ℕ
  intervalRefId : Option ℕ
  nextTimerId : ℕ
deriving DecidableEq, Repr

/-- The component's state on mount. -/
def initialCtrl : Ctrl where
  phase := .idle
  pendingTransitionToLive := false
  pendingResponse := none
  queuedRequests := []
  directInFlight := 0
  avatarSet := false
  initialized := false
  initInFlight := false
  isReady := false
  avatarStreamAttached := false
  isAvatarStreamReady := false
  speakDelays := 0
  inactivityCountdown := 30
  timeoutLive := []
  timeoutRefId := none
  intervalLive := []
  intervalRefId := none
  nextTimerId := 0

/-- `clearInactivityTimers`: clears the timeout and the interval the two
refs point at (the refs are left holding the stale ids, as in the
source). -/
def clearInactivityTimers (s : Ctrl) : Ctrl :=
  { s with
    timeoutLive :=
      match s.timeoutRefId with
      | some tid => s.timeoutLive.erase tid
      | none => s.timeoutLive
    intervalLive :=
      match s.intervalRefId with
      | some iid => s.intervalLive.erase iid
      | none => s.intervalLive }

/-- The arming sequence shared by the `AVATAR_STOP_TALKING` listener and
the `avatarSpeakingStatus` storage handler: clear both timers, reset the
countdown to 20, start a fresh 1s interval and a fresh 20s timeout. -/
def armInactivityTimer (s : Ctrl) : Ctrl :=
  let s1 := clearInactivityTimers s
  let s2 := { s1 with inactivityCountdown := 20 }
  let iid := s2.nextTimerId
  let tid := s2.nextTimerId + 1
  { s2 with
    intervalLive := s2.intervalLive ++ [iid]
    intervalRefId := some iid
    timeoutLive := s2.timeoutLive ++ [tid]
    timeoutRefId := some tid
    nextTimerId := s2.nextTimerId + 2 }

/-- What a call to `initializeAvatarSession` does synchronously. -/
inductive InitCallResult where
  | joinedInFlight
  | alreadyInitialized
  | started
deriving DecidableEq, Repr

/-- `initializeAvatarSession`'s guard structure: an in-flight promise is
returned as-is, a completed initialization returns at once, and only
otherwise does a new create-session sequence begin. -/
def initializeAvatarSession (s : Ctrl) : Ctrl × List Effect × InitCallResult :=
  if s.initInFlight then (s, [], .joinedInFlight)
  else if s.initialized then (s, [], .alreadyInitialized)
  else ({ s with initInFlight := true }, [.beginSessionInit], .started)

/-- `cleanupAvatarSession` (error-free path): run the registered cleanup
and `stopAvatar` when an avatar instance exists, reset the session
bookkeeping, and clear the video element's stream handle. -/
def cleanupAvatarSession (s : Ctrl) : Ctrl × List Effect :=
  let effs :=
    (if s.avatarSet then [Effect.releaseStreamHandle, Effect.stopRemoteSession] else []) ++
      [Effect.releaseStreamHandle]
  ({ s with
      avatarSet := false
      initialized := false
      isReady := false
      initInFlight := false }, effs)

/-- `setPhase` plus the two `useEffect`s keyed on `phase`: they run only
when the value changes, and act only when the new phase is `stream`
(attach the already-received stream and flip the ready flag; schedule the
1-second delayed `speakPendingResponse`). -/
def setPhase (s : Ctrl) (p : Phase) : Ctrl × List Effect :=
  if s.phase = p then (s, [])
  else
    let s1 := { s with phase := p }
    if p = .stream then
      let (s2, effs) :=
        if s1.avatarStreamAttached then
          ({ s1 with isAvatarStreamReady := true }, [Effect.attachStreamToVideo])
        else (s1, [])
      ({ s2 with speakDelays := s2.speakDelays + 1 }, effs)
    else (s1, [])

/-- `speakPendingResponse`'s body with the outcome of the awaited `speak`
call injected: the guard requires a pending response, an avatar instance
and phase `stream` — it does not consult `isAvatarStreamReady`. -/
def speakPendingResponse (s : Ctrl) (ok : Bool) : Ctrl × List Effect :=
  match s.pendingResponse with
  | none => (s, [])
  | some pr =>
      if s.avatarSet = false ∨ s.phase ≠ .stream then (s, [])
      else
        let effs := [Effect.markSpeakingStarted,
                     Effect.appendChatHistory pr.question pr.response,
                     Effect.speakPending pr.response]
        if ok then ({ s with pendingResponse := none }, effs)
        else (s, effs ++ [Effect.setErrorBanner, Effect.markSpeakingEnded])

/-- `handleChatInput`: cancel the inactivity timer, and in `idle` set the
pending-transition flag and kick off session initialization. -/
def handleChatInput (s : Ctrl) : Ctrl × List Effect :=
  let s1 := clearInactivityTimers s
  if s1.phase = .idle then
    let s2 := { s1 with pendingTransitionToLive := true }
    let r := initializeAvatarSession s2
    (r.1, r.2.1)
  else (s1, [])

/-- The discrete events that re-enter the controller: handler
invocations, resolutions of awaited calls, and timer callbacks. -/
inductive Ev where
  | chatRequest (q : String)
  | initResolveSuccess (resp : String → String)
  | initResolveFailure
  | streamReadyEvt
  | idleVideoEnd
  | toLiveVideoEnd
  | toIdleVideoEnd
  | speakDelayFire (ok : Bool)
  | directResponseArrived (q r : String) (ok : Bool)
  | avatarStopTalking
  | storageSpeakingEnded
  | storageSpeakingStarted
  | inactivityFire (id : ℕ)
  | intervalTick (id : ℕ)

/-- One event-loop turn. -/
def step (s : Ctrl) : Ev → Ctrl × List Effect
  | .chatRequest q =>
      let r := handleChatInput s
      if r.1.isReady = false then
        ({ r.1 with queuedRequests := r.1.queuedRequests ++ [q] }, r.2)
      else
        ({ r.1 with directInFlight := r.1.directInFlight + 1 }, r.2 ++ [.queryBackend q])
  | .initResolveSuccess resp =>
      if s.initInFlight = false then (s, [])
      else
        let s1 := { s with avatarSet := true, initialized := true, isReady := true }
        let queries := s1.queuedRequests.map Effect.queryBackend
        let s2 :=
          match s1.queuedRequests.getLast? with
          | none => s1
          | some q => { s1 with pendingResponse := some ⟨q, resp q⟩ }
        ({ s2 with queuedRequests := [], initInFlight := false }, queries)
  | .initResolveFailure =>
      if s.initInFlight = false then (s, [])
      else
        ({ s with initInFlight := false, initialized := false, isReady := false },
          [.setErrorBanner])
  | .streamReadyEvt => ({ s with avatarStreamAttached := true }, [.attachStreamToVideo])
  | .idleVideoEnd =>
      if s.phase = .idle ∧ s.pendingTransitionToLive = true then
        let r := setPhase s .to_live
        ({ r.1 with pendingTransitionToLive := false }, r.2 ++ [.playToLiveFromZero])
      else if s.phase = .idle then (s, [.restartIdleFromZero])
      else (s, [])
  | .toLiveVideoEnd => setPhase s .stream
  | .toIdleVideoEnd =>
      let r := setPhase s .idle
      ({ r.1 with pendingTransitionToLive := false }, r.2 ++ [.restartIdleFromZero])
  | .speakDelayFire ok =>
      if s.speakDelays = 0 then (s, [])
      else speakPendingResponse { s with speakDelays := s.speakDelays - 1 } ok
  | .directResponseArrived q r ok =>
      if s.directInFlight = 0 then (s, [])
      else
        let s1 := { s with directInFlight := s.directInFlight - 1 }
        if s1.avatarSet then
          if ok then
            (s1, [.markSpeakingStarted, .appendChatHistory q r, .speakDirect r,
                  .markSpeakingEnded])
          else
            (s1, [.markSpeakingStarted, .appendChatHistory q r, .speakDirect r,
                  .setErrorBanner, .markSpeakingEnded])
        else (s1, [.setErrorBanner, .markSpeakingEnded])
  | .avatarStopTalking =>
      if s.phase = .stream then (armInactivityTimer s, [.markSpeakingEnded])
      else (s, [.markSpeakingEnded])
  | .storageSpeakingEnded => (armInactivityTimer s, [])
  | .storageSpeakingStarted => (clearInactivityTimers s, [])
  | .inactivityFire id =>
      if id ∈ s.timeoutLive then
        let s1 := clearInactivityTimers { s with timeoutLive := s.timeoutLive.erase id }
        let r := cleanupAvatarSession s1
        let r2 := setPhase r.1 .to_idle
        (r2.1, r.2 ++ r2.2 ++ [.playToIdleFromZero])
      else (s, [])
  | .intervalTick id =>
      if id ∈ s.intervalLive then
        ({ s with inactivityCountdown := s.inactivityCountdown - 1 }, [])
      else (s, [])

/-- A sequence of event-loop turns, with the effects concatenated. -/
def run (s : Ctrl) : List Ev → Ctrl × List Effect
  | [] => (s, [])
  | e :: es =>
      let r := step s e
      let r2 := run r.1 es
      (r2.1, r.2 ++ r2.2)

/-- The states the controller can be in after mount. -/
inductive Reachable : Ctrl → Prop where
  | init : Reachable initialCtrl
  | next (s : Ctrl) (e : Ev) : Reachable s → Reachable (step s e).1

/-- C3: when the idle video ends in phase `idle`, a set pending-transition
flag moves the phase to `to_live`, clears the flag at that moment and
starts the transition-in video from 0; with the flag clear the phase
stays `idle` and the idle video restarts from 0. -/
theorem handleIdleVideoEnd_transition (s : Ctrl) (h : s.phase = .idle) :
    (s.pendingTransitionToLive = true →
      step s .idleVideoEnd =
        ({ s with phase := .to_live, pendingTransitionToLive := false },
          [.playToLiveFromZero])) ∧
    (s.pendingTransitionToLive = false →
      step s .idleVideoEnd = (s, [.restartIdleFromZero])) := by
  constructor <;> intro hp <;> simp [step, setPhase, h, hp]

/-- Witness for C3 on the mount state with the flag set and then clear. -/
theorem handleIdleVideoEnd_transition_witness :
    step { initialCtrl with pendingTransitionToLive := true } .idleVideoEnd =
      ({ initialCtrl with phase := .to_live, pendingTransitionToLive := false },
        [.playToLiveFromZero]) ∧
    step initialCtrl .idleVideoEnd = (initialCtrl, [.restartIdleFromZero]) :=
  ⟨(handleIdleVideoEnd_transition { initialCtrl with pendingTransitionToLive := true } rfl).1
      rfl,
    (handleIdleVideoEnd_transition initialCtrl rfl).2 rfl⟩

/-- C7 counterexample: firing the to-idle "ended" event again while the
controller is already in its target phase `idle` is not a no-op — it
clears a freshly set pending-transition flag and restarts the idle video
from 0. -/
theorem handleToIdleVideoEnd_repeat_counterexample :
    ({ initialCtrl with pendingTransitionToLive := true } : Ctrl).phase = .idle ∧
    step { initialCtrl with pendingTransitionToLive := true } .toIdleVideoEnd ≠
      ({ initialCtrl with pendingTransitionToLive := true }, []) ∧
    step { initialCtrl with pendingTransitionToLive := true } .toIdleVideoEnd =
      (initialCtrl, [.restartIdleFromZero]) := by
  refine ⟨rfl, ?_, ?_⟩ <;> simp [step, setPhase, initialCtrl]

/-- C7 amended: the idle-video and to-live-video ended handlers are no-ops
when fired again in their transitions' target phases, but the to-idle
ended handler fired again in `idle` keeps the phase yet clears the
pending-transition flag and restarts the idle video from 0. -/
theorem videoEnd_idempotency_amended (s : Ctrl) :
    (s.phase = .to_live → step s .idleVideoEnd = (s, [])) ∧
    (s.phase = .stream → step s .toLiveVideoEnd = (s, [])) ∧
    (s.phase = .idle →
      step s .toIdleVideoEnd =
        ({ s with pendingTransitionToLive := false }, [.restartIdleFromZero])) := by
  refine ⟨?_, ?_, ?_⟩ <;> intro h <;> simp [step, setPhase, h]

/-- Witness for C7's amended statement: a duplicate to-live "ended" in
`stream` is a no-op. -/
theorem videoEnd_idempotency_witness :
    step { initialCtrl with phase := .stream } .toLiveVideoEnd =
      ({ initialCtrl with phase := .stream }, []) :=
  (videoEnd_idempotency_amended { initialCtrl with phase := .stream }).2.1 rfl

/-- C5: a live inactivity timeout firing in phase `stream` with a live
session tears the session down (remote stop call, stream handle release),
moves the phase to `to_idle` and starts the transition-out video from 0;
a timeout that is no longer live (cancelled) has no effect at all. -/
theorem inactivity_expiry_teardown (s : Ctrl) (tid : ℕ) :
    (s.phase = .stream → s.avatarSet = true → tid ∈ s.timeoutLive →
      (step s (.inactivityFire tid)).1.phase = .to_idle ∧
      (step s (.inactivityFire tid)).1.avatarSet = false ∧
      (step s (.inactivityFire tid)).1.initialized = false ∧
      Effect.stopRemoteSession ∈ (step s (.inactivityFire tid)).2 ∧
      Effect.releaseStreamHandle ∈ (step s (.inactivityFire tid)).2 ∧
      (step s (.inactivityFire tid)).2.getLast? = some .playToIdleFromZero) ∧
    (tid ∉ s.timeoutLive → step s (.inactivityFire tid) = (s, [])) := by
  constructor
  · intro hp ha ht
    simp [step, ht, clearInactivityTimers, cleanupAvatarSession, setPhase, hp, ha]
  · intro ht
    simp [step, ht]

/-- Witness for C5 on a stream-phase state with one live 20s timeout. -/
theorem inactivity_expiry_teardown_witness :
    (step { initialCtrl with
        phase := .stream, avatarSet := true, initialized := true, isReady := true,
        timeoutLive := [1], timeoutRefId := some 1,
        intervalLive := [0], intervalRefId := some 0, nextTimerId := 2 }
      (.inactivityFire 1)).1.phase = .to_idle ∧
    Effect.stopRemoteSession ∈
      (step { initialCtrl with
          phase := .stream, avatarSet := true, initialized := true, isReady := true,
          timeoutLive := [1], timeoutRefId := some 1,
          intervalLive := [0], intervalRefId := some 0, nextTimerId := 2 }
        (.inactivityFire 1)).2 :=
  ⟨((inactivity_expiry_teardown _ 1).1 rfl rfl (by decide)).1,
    ((inactivity_expiry_teardown _ 1).1 rfl rfl (by decide)).2.2.2.1⟩

/-- A run that reaches `stream` with a queued response while the remote
stream has not yet attached: user input in idle, initialization resolving
(queuing the computed response), idle video ending, transition-in video
ending. -/
def pendingSpeakTrace : List Ev :=
  [.chatRequest "q", .initResolveSuccess (fun _ => "a"), .idleVideoEnd, .toLiveVideoEnd]

/-- C2 counterexample: after `pendingSpeakTrace` the phase is `stream`
but the stream-ready flag is still false, and the delayed
`speakPendingResponse` nevertheless issues the speak call — delivery is
not gated on the stream-ready flag. -/
theorem speak_before_stream_ready_counterexample :
    (run initialCtrl pendingSpeakTrace).1.isAvatarStreamReady = false ∧
    (run initialCtrl pendingSpeakTrace).1.phase = .stream ∧
    Effect.speakPending "a" ∈
      (step (run initialCtrl pendingSpeakTrace).1 (.speakDelayFire true)).2 := by
  decide

/-- C2 amended: the queued PendingResponse is spoken (by the delayed
`speakPendingResponse`) exactly when a delay is pending, a response is
queued, an avatar instance exists and the phase is `stream` — the
stream-ready flag is not consulted; a successful delivery clears the
queue entry so the response is spoken once; nothing is ever spoken in
`idle` or `to_live`; entering `stream` schedules one fixed delay. -/
theorem pendingResponse_delivery_amended :
    (∀ (s : Ctrl) (ok : Bool),
      (∃ t, Effect.speakPending t ∈ (step s (.speakDelayFire ok)).2) ↔
        (0 < s.speakDelays ∧ s.pendingResponse.isSome = true ∧ s.avatarSet = true ∧
          s.phase = .stream)) ∧
    (∀ (s : Ctrl) (pr : PendingResp), s.pendingResponse = some pr → 0 < s.speakDelays →
      s.avatarSet = true → s.phase = .stream →
      (step s (.speakDelayFire true)).1.pendingResponse = none ∧
      Effect.speakPending pr.response ∈ (step s (.speakDelayFire true)).2) ∧
    (∀ (s : Ctrl) (ok : Bool), s.phase = .idle ∨ s.phase = .to_live →
      (step s (.speakDelayFire ok)).2 = []) ∧
    (∀ s : Ctrl, s.phase ≠ .stream → (step s .toLiveVideoEnd).1.speakDelays =
      s.speakDelays + 1) := by
  refine ⟨?_, ?_, ?_, ?_⟩
  · intro s ok
    constructor
    · rintro ⟨t, ht⟩
      by_cases hd : s.speakDelays = 0
      · simp [step, hd] at ht
      rcases hpr : s.pendingResponse with _ | pr
      · simp [step, hd, speakPendingResponse, hpr] at ht
      by_cases ha : s.avatarSet = true
      · by_cases hph : s.phase = .stream
        · exact ⟨Nat.pos_of_ne_zero hd, by simp [hpr], ha, hph⟩
        · simp [step, hd, speakPendingResponse, hpr, hph] at ht
      · simp [step, hd, speakPendingResponse, hpr,
          Bool.not_eq_true _ ▸ (by simpa using ha : s.avatarSet = false)] at ht
    · rintro ⟨hd, hp, ha, hph⟩
      rcases hpr : s.pendingResponse with _ | pr
      · rw [hpr] at hp; simp at hp
      refine ⟨pr.response, ?_⟩
      rcases ok <;>
        simp [step, Nat.pos_iff_ne_zero.mp hd, speakPendingResponse, hpr, ha, hph]
  · intro s pr hpr hd ha hph
    constructor <;>
      simp [step, Nat.pos_iff_ne_zero.mp hd, speakPendingResponse, hpr, ha, hph]
  · intro s ok h
    have hph : s.phase ≠ .stream := by rcases h with h | h <;> simp [h]
    by_cases hd : s.speakDelays = 0
    · simp [step, hd]
    rcases hpr : s.pendingResponse with _ | pr <;>
      simp [step, hd, speakPendingResponse, hpr, hph]
  · intro s h
    by_cases hat : s.avatarStreamAttached = true <;> simp [step, setPhase, h, hat]

/-- C8 counterexample: a failed speak leaves the PendingResponse in
place (only the speaking status is marked ended), contradicting "cleared
on speak failure". -/
theorem speak_failure_retains_pending_counterexample :
    (step { initialCtrl with
        phase := .stream, avatarSet := true, initialized := true, isReady := true,
        avatarStreamAttached := true, isAvatarStreamReady := true,
        pendingResponse := some ⟨"w", "r"⟩, speakDelays := 1 }
      (.speakDelayFire false)).1.pendingResponse = some ⟨"w", "r"⟩ ∧
    Effect.markSpeakingEnded ∈
      (step { initialCtrl with
          phase := .stream, avatarSet := true, initialized := true, isReady := true,
          avatarStreamAttached := true, isAvatarStreamReady := true,
          pendingResponse := some ⟨"w", "r"⟩, speakDelays := 1 }
        (.speakDelayFire false)).2 := by
  decide

/-- C8 amended: a failed delivery still marks the speaking status ended
(keeping the inactivity-timer bookkeeping consistent) but retains the
PendingResponse; only a successful delivery clears it, and a successful
delivery does not mark the status ended itself. -/
theorem speak_failure_bookkeeping_amended (s : Ctrl) (pr : PendingResp)
    (hpr : s.pendingResponse = some pr) (hd : 0 < s.speakDelays)
    (ha : s.avatarSet = true) (hph : s.phase = .stream) :
    ((step s (.speakDelayFire false)).1.pendingResponse = some pr ∧
      Effect.markSpeakingEnded ∈ (step s (.speakDelayFire false)).2) ∧
    ((step s (.speakDelayFire true)).1.pendingResponse = none ∧
      Effect.markSpeakingEnded ∉ (step s (.speakDelayFire true)).2) := by
  refine ⟨⟨?_, ?_⟩, ?_, ?_⟩ <;>
    simp [step, Nat.pos_iff_ne_zero.mp hd, speakPendingResponse, hpr, ha, hph]

/-- Witness for C8's amended statement at a concrete stream state. -/
theorem speak_failure_bookkeeping_witness :
    (step { initialCtrl with
        phase := .stream, avatarSet := true,
        pendingResponse := some ⟨"w", "r"⟩, speakDelays := 1 }
      (.speakDelayFire false)).1.pendingResponse = some ⟨"w", "r"⟩ :=
  ((speak_failure_bookkeeping_amended
      { initialCtrl with
        phase := .stream, avatarSet := true,
        pendingResponse := some ⟨"w", "r"⟩, speakDelays := 1 }
      ⟨"w", "r"⟩ rfl (by decide) rfl rfl).1).1

/-- Well-formedness of the timer plumbing: each of the two refs points at
the single live timer of its kind, when one exists. -/
def TimerWF (s : Ctrl) : Prop :=
  (s.timeoutLive = [] ∨ ∃ t, s.timeoutLive = [t] ∧ s.timeoutRefId = some t) ∧
  (s.intervalLive = [] ∨ ∃ t, s.intervalLive = [t] ∧ s.intervalRefId = some t)

theorem timerWF_clear (s : Ctrl) (h : TimerWF s) :
    (clearInactivityTimers s).timeoutLive = [] ∧
    (clearInactivityTimers s).intervalLive = [] := by
  obtain ⟨h1, h2⟩ := h
  constructor
  · rcases h1 with h1 | ⟨t, hl, hr⟩
    · rcases hrf : s.timeoutRefId <;> simp [clearInactivityTimers, h1, hrf]
    · simp [clearInactivityTimers, hl, hr]
  · rcases h2 with h2 | ⟨t, hl, hr⟩
    · rcases hrf : s.intervalRefId <;> simp [clearInactivityTimers, h2, hrf]
    · simp [clearInactivityTimers, hl, hr]

theorem clearInactivityTimers_nextTimerId (s : Ctrl) :
    (clearInactivityTimers s).nextTimerId = s.nextTimerId := rfl

theorem timerWF_arm (s : Ctrl) (h : TimerWF s) :
    (armInactivityTimer s).timeoutLive = [s.nextTimerId + 1] ∧
    (armInactivityTimer s).timeoutRefId = some (s.nextTimerId + 1) ∧
    (armInactivityTimer s).intervalLive = [s.nextTimerId] ∧
    (armInactivityTimer s).intervalRefId = some s.nextTimerId ∧
    (armInactivityTimer s).inactivityCountdown = 20 := by
  obtain ⟨hc1, hc2⟩ := timerWF_clear s h
  simp [armInactivityTimer, hc1, hc2, clearInactivityTimers_nextTimerId]

/-- The four timer fields, for transport of `TimerWF` along steps that do
not touch them. -/
def timers (s : Ctrl) : List ℕ × Option ℕ × List ℕ × Option ℕ :=
  (s.timeoutLive, s.timeoutRefId, s.intervalLive, s.intervalRefId)

theorem timerWF_of_timers_eq (s s' : Ctrl) (h : timers s' = timers s)
    (hw : TimerWF s) : TimerWF s' := by
  simp only [timers, Prod.mk.injEq] at h
  obtain ⟨h1, h2, h3, h4⟩ := h
  unfold TimerWF at hw ⊢
  rw [h1, h2, h3, h4]
  exact hw

theorem timerWF_step (s : Ctrl) (e : Ev) (h : TimerWF s) : TimerWF (step s e).1 := by
  have harm : TimerWF (armInactivityTimer s) := by
    obtain ⟨h1, h2, h3, h4, h5⟩ := timerWF_arm s h
    exact ⟨Or.inr ⟨_, h1, h2⟩, Or.inr ⟨_, h3, h4⟩⟩
  have hclear : TimerWF (clearInactivityTimers s) := by
    obtain ⟨h1, h2⟩ := timerWF_clear s h
    exact ⟨Or.inl h1, Or.inl h2⟩
  cases e with
  | chatRequest q =>
      refine timerWF_of_timers_eq (clearInactivityTimers s) _ ?_ hclear
      simp only [step, handleChatInput, initializeAvatarSession]
      split_ifs <;> simp [timers]
  | initResolveSuccess resp =>
      refine timerWF_of_timers_eq s _ ?_ h
      by_cases hf : s.initInFlight = false
      · simp [step, hf, timers]
      · simp only [step, hf, if_false]
        rcases hq : s.queuedRequests.getLast? <;> simp [hq, timers]
  | initResolveFailure =>
      refine timerWF_of_timers_eq s _ ?_ h
      simp only [step]
      split_ifs <;> simp [timers]
  | streamReadyEvt => exact timerWF_of_timers_eq s _ (by simp [step, timers]) h
  | idleVideoEnd =>
      refine timerWF_of_timers_eq s _ ?_ h
      simp only [step, setPhase]
      split_ifs <;> simp [timers]
  | toLiveVideoEnd =>
      refine timerWF_of_timers_eq s _ ?_ h
      simp only [step, setPhase]
      split_ifs <;> simp [timers]
  | toIdleVideoEnd =>
      refine timerWF_of_timers_eq s _ ?_ h
      simp only [step, setPhase]
      split_ifs <;> simp [timers]
  | speakDelayFire ok =>
      refine timerWF_of_timers_eq s _ ?_ h
      simp only [step, speakPendingResponse]
      rcases hq : s.pendingResponse <;> simp only [hq] <;> split_ifs <;> simp [timers]
  | directResponseArrived q r ok =>
      refine timerWF_of_timers_eq s _ ?_ h
      simp only [step]
      split_ifs <;> simp [timers]
  | avatarStopTalking =>
      simp only [step]
      split_ifs with hph
      · exact harm
      · exact h
  | storageSpeakingEnded => exact harm
  | storageSpeakingStarted => exact hclear
  | inactivityFire id =>
      by_cases hin : id ∈ s.timeoutLive
      · obtain ⟨h1, h2⟩ := h
        rcases h1 with h1 | ⟨t, hl, hr⟩
        · rw [h1] at hin; simp at hin
        have hid : id = t := by rw [hl] at hin; simpa using hin
        subst hid
        have hwf' : TimerWF { s with timeoutLive := s.timeoutLive.erase id } := by
          refine ⟨Or.inl ?_, by simpa using h2⟩
          simp [hl]
        have hcl' := timerWF_clear _ hwf'
        refine timerWF_of_timers_eq
          (clearInactivityTimers { s with timeoutLive := s.timeoutLive.erase id }) _ ?_
          ⟨Or.inl hcl'.1, Or.inl hcl'.2⟩
        simp only [step, cleanupAvatarSession, setPhase]
        simp only [hin, if_true]
        split_ifs <;> simp [timers]
      · simp only [step, hin, if_false]
        exact h
  | intervalTick id =>
      refine timerWF_of_timers_eq s _ ?_ h
      simp only [step]
      split_ifs <;> simp [timers]

/-- C4 counterexample: from the mount state (phase `idle`), a cross-window
`avatarSpeakingStatus = ended` storage notification — an avatar
finished-speaking event — arms the 20-second inactivity timer even though
the phase is not `stream`. -/
theorem inactivity_arm_in_idle_counterexample :
    initialCtrl.phase = .idle ∧
    (step initialCtrl .storageSpeakingEnded).1.timeoutLive = [1] ∧
    (step initialCtrl .storageSpeakingEnded).1.inactivityCountdown = 20 := by
  decide

/-- C4 amended: the local avatar-stop-talking listener arms the timer
only while the phase is exactly `stream` (otherwise the state is
untouched), but the cross-window speaking-status "ended" storage handler
arms it in any phase; in every reachable state at most one timeout and
one interval are live, and arming always cancels the previous instance
and resets the countdown to a full 20 seconds. -/
theorem inactivity_timer_amended :
    (∀ s : Ctrl, Reachable s → s.timeoutLive.length ≤ 1 ∧ s.intervalLive.length ≤ 1) ∧
    (∀ s : Ctrl, s.phase ≠ .stream → (step s .avatarStopTalking).1 = s) ∧
    (∀ s : Ctrl, TimerWF s → s.phase = .stream →
      (step s .avatarStopTalking).1.inactivityCountdown = 20 ∧
      (step s .avatarStopTalking).1.timeoutLive = [s.nextTimerId + 1] ∧
      (step s .avatarStopTalking).1.timeoutRefId = some (s.nextTimerId + 1)) ∧
    (∀ s : Ctrl, TimerWF s →
      (step s .storageSpeakingEnded).1.inactivityCountdown = 20 ∧
      (step s .storageSpeakingEnded).1.timeoutLive = [s.nextTimerId + 1]) := by
  have hwf : ∀ s : Ctrl, Reachable s → TimerWF s := by
    intro s hr
    induction hr with
    | init => exact ⟨Or.inl rfl, Or.inl rfl⟩
    | next s e hr ih => exact timerWF_step s e ih
  refine ⟨?_, ?_, ?_, ?_⟩
  · intro s hr
    obtain ⟨h1, h2⟩ := hwf s hr
    constructor
    · rcases h1 with h1 | ⟨t, hl, -⟩
      · simp [h1]
      · simp [hl]
    · rcases h2 with h2 | ⟨t, hl, -⟩
      · simp [h2]
      · simp [hl]
  · intro s hph
    simp [step, hph]
  · intro s h hph
    obtain ⟨h1, h2, h3, h4, h5⟩ := timerWF_arm s h
    simp [step, hph, h1, h2, h5]
  · intro s h
    obtain ⟨h1, h2, h3, h4, h5⟩ := timerWF_arm s h
    simp [step, h1, h5]

/-- The events that make up a sequence of `initializeAvatarSession`
calls and their resolutions. -/
def isInitEv : Ev → Bool
  | .chatRequest _ => true
  | .initResolveSuccess _ => true
  | .initResolveFailure => true
  | _ => false

/-- How many create-session sequences the recorded effects start. -/
def countBeginInit (l : List Effect) : ℕ :=
  l.countP fun e => match e with
    | .beginSessionInit => true
    | _ => false

/-- How many initialization resolutions (successes or failures) a trace
contains. -/
def countResolves (l : List Ev) : ℕ :=
  l.countP fun e => match e with
    | .initResolveSuccess _ => true
    | .initResolveFailure => true
    | _ => false

/-- 1 when a new create-session sequence may start, 0 while one is in
flight. -/
def inFlightN (s : Ctrl) : ℕ := if s.initInFlight then 0 else 1

theorem chatRequest_potential (s : Ctrl) (q : String) :
    countBeginInit (step s (.chatRequest q)).2 +
        inFlightN (step s (.chatRequest q)).1 = inFlightN s := by
  simp only [step, handleChatInput, initializeAvatarSession, inFlightN]
  split_ifs <;> simp_all [countBeginInit, clearInactivityTimers]

theorem initResolveSuccess_potential (s : Ctrl) (resp : String → String) :
    countBeginInit (step s (.initResolveSuccess resp)).2 +
        inFlightN (step s (.initResolveSuccess resp)).1 ≤ 1 + inFlightN s := by
  by_cases hf : s.initInFlight = false
  · simp [step, hf, countBeginInit, inFlightN]
  · simp only [step, hf, if_false, inFlightN]
    rcases hq : s.queuedRequests.getLast? <;>
      simp [hq, hf, countBeginInit, List.countP_eq_zero]

theorem initResolveFailure_potential (s : Ctrl) :
    countBeginInit (step s .initResolveFailure).2 +
        inFlightN (step s .initResolveFailure).1 ≤ 1 + inFlightN s := by
  by_cases hf : s.initInFlight = false <;>
    simp [step, hf, countBeginInit, inFlightN]

theorem countBeginInit_run_le (evs : List Ev) :
    ∀ s : Ctrl, (∀ e ∈ evs, isInitEv e = true) →
      countBeginInit (run s evs).2 ≤ countResolves evs + inFlightN s := by
  induction evs with
  | nil => intro s _; simp [run, countBeginInit, countResolves]
  | cons e es ih =>
      intro s hall
      have he := hall e (List.mem_cons_self e es)
      have hes : ∀ e' ∈ es, isInitEv e' = true :=
        fun e' h' => hall e' (List.mem_cons_of_mem e h')
      have hrun : (run s (e :: es)).2 = (step s e).2 ++ (run (step s e).1 es).2 := by
        simp [run]
      have hih := ih (step s e).1 hes
      rw [hrun]
      unfold countBeginInit at hih ⊢
      rw [List.countP_append]
      cases e with
      | chatRequest q =>
          have hpot := chatRequest_potential s q
          unfold countBeginInit at hpot
          have hres : countResolves (Ev.chatRequest q :: es) = countResolves es := by
            simp [countResolves]
          rw [hres]
          omega
      | initResolveSuccess resp =>
          have hpot := initResolveSuccess_potential s resp
          unfold countBeginInit at hpot
          have hres : countResolves (Ev.initResolveSuccess resp :: es) =
              countResolves es + 1 := by
            simp [countResolves]
          rw [hres]
          omega
      | initResolveFailure =>
          have hpot := initResolveFailure_potential s
          unfold countBeginInit at hpot
          have hres : countResolves (Ev.initResolveFailure :: es) =
              countResolves es + 1 := by
            simp [countResolves]
          rw [hres]
          omega
      | streamReadyEvt => simp [isInitEv] at he
      | idleVideoEnd => simp [isInitEv] at he
      | toLiveVideoEnd => simp [isInitEv] at he
      | toIdleVideoEnd => simp [isInitEv] at he
      | speakDelayFire ok => simp [isInitEv] at he
      | directResponseArrived q r ok => simp [isInitEv] at he
      | avatarStopTalking => simp [isInitEv] at he
      | storageSpeakingEnded => simp [isInitEv] at he
      | storageSpeakingStarted => simp [isInitEv] at he
      | inactivityFire id => simp [isInitEv] at he
      | intervalTick id => simp [isInitEv] at he

/-- C6: session initialization is serialized.  A call made while a
create-session sequence is in flight returns the in-flight result and
starts nothing; a call made after successful initialization is a no-op;
two start-session triggers in rapid succession start exactly one
create-session sequence; and over any trace of initialization calls and
resolutions, at most one sequence is in flight at a time (the number of
started sequences never exceeds the resolved ones by more than one). -/
theorem initialization_serialized :
    (∀ s : Ctrl, s.initInFlight = true →
      initializeAvatarSession s = (s, [], .joinedInFlight)) ∧
    (∀ s : Ctrl, s.initInFlight = false → s.initialized = true →
      initializeAvatarSession s = (s, [], .alreadyInitialized)) ∧
    (∀ q1 q2 : String,
      countBeginInit (run initialCtrl [.chatRequest q1, .chatRequest q2]).2 = 1) ∧
    (∀ evs : List Ev, (∀ e ∈ evs, isInitEv e = true) →
      countBeginInit (run initialCtrl evs).2 ≤ countResolves evs + 1) := by
  refine ⟨?_, ?_, ?_, ?_⟩
  · intro s hf
    simp [initializeAvatarSession, hf]
  · intro s hf hi
    simp [initializeAvatarSession, hf, hi]
  · intro q1 q2
    simp [run, step, handleChatInput, initializeAvatarSession, clearInactivityTimers,
      initialCtrl, countBeginInit]
  · intro evs hall
    have h := countBeginInit_run_le evs initialCtrl hall
    simpa [initialCtrl, inFlightN] using h

/-! ## Assistant-response sanitizer

`sanitizeAssistantResponse` from `openai-assistant.ts`, modelled over
`List Char`.  Each regular expression of the source is translated into
the scan it performs: the global `【...】` replace, the two anchored
trailing-reference replaces, `indexOf` over the cut-symbol list, and the
two line regexes (whose `^[class]*` prefixes are backtrack-free here
because the characters that may follow the prefix are not members of the
class, so only the maximal run can be consumed).
-/

/-- JavaScript's `\s` and `trim` whitespace, restricted to the ASCII
whitespace characters. -/
def jsWhitespace (c : Char) : Bool :=
  c = ' ' || c = '\t' || c = '\n' || c = '\r' || c = '\x0b' || c = '\x0c'

/-- The scan of the global replace `/【[^】]+】/g`: at each `【`, a match
needs at least one non-`】` character and then a `】`; a match is dropped
and scanning resumes after it, otherwise the character is kept.  The
fuel argument (instantiated with the list's length, which the scan never
exhausts since every step consumes at least one character) makes the
recursion structural. -/
def removeCitationsGo : ℕ → List Char → List Char
  | 0, l => l
  | _ + 1, [] => []
  | fuel + 1, c :: rest =>
      if c = '【' then
        let inner := rest.takeWhile (fun x => x ≠ '】')
        let after := rest.dropWhile (fun x => x ≠ '】')
        if inner ≠ [] ∧ after ≠ [] then removeCitationsGo fuel after.tail
        else c :: removeCitationsGo fuel rest
      else c :: removeCitationsGo fuel rest

def removeCitations (l : List Char) : List Char := removeCitationsGo l.length l

/-- The anchored replace `/\s*\[\d+\]$/g`: a final `]`, at least one
digit, the `[`, and any whitespace run before it are removed. -/
def stripTrailingBracketRef (l : List Char) : List Char :=
  match l.reverse with
  | ']' :: t =>
      let digits := t.takeWhile Char.isDigit
      let t2 := t.dropWhile Char.isDigit
      if digits ≠ [] ∧ t2.head? = some '[' then
        ((t2.tail).dropWhile jsWhitespace).reverse
      else l
  | _ => l

/-- The anchored replace `/\s*\([^\)]*\)$/g`: a final `)`, a `)`-free
parenthesised group — whose opening `(` is the leftmost candidate, i.e.
the first `(` after the last other `)` — and the whitespace run before
it are removed. -/
def stripTrailingParenRef (l : List Char) : List Char :=
  match l.reverse with
  | ')' :: t =>
      let region := (t.takeWhile (fun c => c ≠ ')')).reverse
      let before := (t.dropWhile (fun c => c ≠ ')')).reverse
      if '(' ∈ region then
        let keep := before ++ region.takeWhile (fun c => c ≠ '(')
        (keep.reverse.dropWhile jsWhitespace).reverse
      else l
  | _ => l

/-- The source's `cutSymbols` array. -/
def cutSymbols : List (List Char) :=
  [['\x60', '\x60', '\x60'], ['~', '~', '~'], ['*', '*'], ['_', '_'],
   ['=', '='], ['-', '-'], ['#', '#'], ['#', '#', '#'], ['=', '>'],
   ['\x7b'], ['\x7d'], ['['], [']'], ['<'], ['>'], [';'], ['|'],
   ['-', '-', '-']]

/-- `String.prototype.indexOf` for a needle list: the first index at
which the needle occurs, if any (the empty needle occurs at 0). -/
def indexOfSub (needle : List Char) : List Char → Option ℕ
  | [] => if needle.isPrefixOf ([] : List Char) then some 0 else none
  | c :: t =>
      if needle.isPrefixOf (c :: t) then some 0
      else (indexOfSub needle t).map (· + 1)

/-- The source's cut-symbol loop: `minIdx` starts at the length and each
symbol found earlier lowers it. -/
def minCutIndex (r : List Char) : ℕ :=
  cutSymbols.foldl
    (fun minIdx sym =>
      match indexOfSub sym r with
      | some idx => if idx < minIdx then idx else minIdx
      | none => minIdx)
    r.length

/-- `split('\n')`. -/
def splitLines : List Char → List (List Char)
  | [] => [[]]
  | c :: t =>
      if c = '\n' then [] :: splitLines t
      else
        match splitLines t with
        | [] => [[c]]
        | l :: ls => (c :: l) :: ls

/-- `/^\s*[-*#]|\|/`: a `-`, `*` or `#` after the leading whitespace run,
or a `|` anywhere in the line. -/
def lineLooksListOrTable (line : List Char) : Bool :=
  (match line.dropWhile jsWhitespace with
   | c :: _ => c = '-' || c = '*' || c = '#'
   | [] => false) ||
  line.contains '|'

/-- `/^[\s\d]*[\-\*\.]\s/`: a `-`, `*` or `.` followed by whitespace,
after the leading run of whitespace and digits. -/
def lineLooksNumberedList (line : List Char) : Bool :=
  match line.dropWhile (fun c => jsWhitespace c || c.isDigit) with
  | c1 :: c2 :: _ => (c1 = '-' || c1 = '*' || c1 = '.') && jsWhitespace c2
  | _ => false

def isArtifactLine (ln : List Char) : Bool :=
  lineLooksListOrTable ln || lineLooksNumberedList ln

/-- `trim()`. -/
def jsTrim (l : List Char) : List Char :=
  ((l.dropWhile jsWhitespace).reverse.dropWhile jsWhitespace).reverse

/-- The response after citation and trailing-reference removal, the
input of the truncation stage. -/
def refsStripped (resp0 : List Char) : List Char :=
  stripTrailingParenRef (stripTrailingBracketRef (removeCitations resp0))

/-- The truncation index the source computes: the cut-symbol minimum,
lowered by `indexOf` of the text of the first list/table-looking line —
the first occurrence of that text in the whole response, not necessarily
the line's own position. -/
def codeCutIndex (r : List Char) : ℕ :=
  let m1 := minCutIndex r
  match (splitLines r).find? isArtifactLine with
  | some ln =>
      match indexOfSub ln r with
      | some i => min m1 i
      | none => m1
  | none => m1

/-- `sanitizeAssistantResponse` as the source computes it. -/
def sanitizeAssistantResponse (resp0 : List Char) : List Char :=
  jsTrim ((refsStripped resp0).take (codeCutIndex (refsStripped resp0)))

/-- The start offset (within the joined text) of the first
list/table-looking line. -/
def firstArtifactLineStart : List (List Char) → ℕ → Option ℕ
  | [], _ => none
  | ln :: ls, off =>
      if isArtifactLine ln then some off
      else firstArtifactLineStart ls (off + ln.length + 1)

/-- The truncation index the spec describes: the first occurrence of any
cut symbol, or the position at which the first list/table-looking line
itself begins, whichever is earlier. -/
def specCutIndex (r : List Char) : ℕ :=
  let m1 := minCutIndex r
  match firstArtifactLineStart (splitLines r) 0 with
  | some i => min m1 i
  | none => m1

/-- The sanitizer the claim describes, differing from the source only in
cutting at the artifact line's own position. -/
def sanitizeSpecified (resp0 : List Char) : List Char :=
  jsTrim ((refsStripped resp0).take (specCutIndex (refsStripped resp0)))

/-- The messages list `getResponse` inspects: role, whether the first
content entry is text, and that text. -/
structure AssistantMessage where
  isAssistant : Bool
  isText : Bool
  text : List Char

def fallbackReply : List Char :=
  "Sorry, I couldn't process your request.".toList

/-- `OpenAIAssistant.getResponse` after the backend run: on a completed
run, the latest assistant message with text content is sanitized and
returned; otherwise the fixed fallback reply. -/
def getResponse (runCompleted : Bool) (messages : List AssistantMessage) : List Char :=
  if runCompleted then
    match messages.find? (fun m => m.isAssistant) with
    | some m => if m.isText then sanitizeAssistantResponse m.text else fallbackReply
    | none => fallbackReply
  else fallbackReply

theorem splitLines_ne_nil (r : List Char) : splitLines r ≠ [] := by
  induction r with
  | nil => simp [splitLines]
  | cons c t ih =>
      by_cases hc : c = '\n'
      · simp [splitLines, hc]
      · simp only [splitLines, hc, if_false]
        rcases h : splitLines t with _ | ⟨l, ls⟩
        · simp
        · simp

/-- `join` with newline separators, the inverse of `splitLines`. -/
def joinLines : List (List Char) → List Char
  | [] => []
  | [l] => l
  | l :: ls => l ++ '\n' :: joinLines ls

theorem joinLines_splitLines (r : List Char) : joinLines (splitLines r) = r := by
  induction r with
  | nil => rfl
  | cons c t ih =>
      by_cases hc : c = '\n'
      · subst hc
        simp only [splitLines, if_pos rfl]
        rcases h : splitLines t with _ | ⟨l, ls⟩
        · exact absurd h (splitLines_ne_nil t)
        · rw [h] at ih
          cases ls with
          | nil => simpa [joinLines] using ih
          | cons l2 ls2 => simpa [joinLines] using ih
      · simp only [splitLines, hc, if_false]
        rcases h : splitLines t with _ | ⟨l, ls⟩
        · exact absurd h (splitLines_ne_nil t)
        · rw [h] at ih
          cases ls with
          | nil => simpa [joinLines] using ih
          | cons l2 ls2 =>
              simp only [joinLines] at ih ⊢
              simp [ih]

theorem firstArtifactLineStart_shift (L : List (List Char)) (off : ℕ) :
    firstArtifactLineStart L off = (firstArtifactLineStart L 0).map (· + off) := by
  induction L generalizing off with
  | nil => simp [firstArtifactLineStart]
  | cons ln ls ih =>
      by_cases h : isArtifactLine ln = true
      · simp [firstArtifactLineStart, h]
      · simp only [firstArtifactLineStart, h, if_false]
        rw [ih (off + ln.length + 1), ih (0 + ln.length + 1)]
        cases firstArtifactLineStart ls 0
        · simp
        · simp
          omega

theorem firstArtifactLineStart_isPrefix (L : List (List Char)) (o : ℕ)
    (h : firstArtifactLineStart L 0 = some o) :
    ∃ ln, L.find? isArtifactLine = some ln ∧ ln.isPrefixOf ((joinLines L).drop o) := by
  induction L generalizing o with
  | nil => simp [firstArtifactLineStart] at h
  | cons ln0 ls ih =>
      by_cases ha : isArtifactLine ln0 = true
      · simp only [firstArtifactLineStart, ha, if_true, Option.some.injEq] at h
        subst h
        refine ⟨ln0, by simp [List.find?, ha], ?_⟩
        rw [List.drop_zero, List.isPrefixOf_iff_prefix]
        cases ls with
        | nil => simp [joinLines]
        | cons l2 ls2 => exact ⟨'\n' :: joinLines (l2 :: ls2), by simp [joinLines]⟩
      · simp only [firstArtifactLineStart, ha, if_false] at h
        rw [firstArtifactLineStart_shift] at h
        rcases Option.map_eq_some'.mp h with ⟨o', ho', rfl⟩
        obtain ⟨ln, hfind, hpre⟩ := ih o' ho'
        refine ⟨ln, by simp [List.find?, ha, hfind], ?_⟩
        have hls : ls ≠ [] := by
          intro hnil
          rw [hnil] at hfind
          simp at hfind
        rcases ls with _ | ⟨l2, ls2⟩
        · exact absurd rfl hls
        have hj : joinLines (ln0 :: l2 :: ls2) =
            (ln0 ++ ['\n']) ++ joinLines (l2 :: ls2) := by
          simp [joinLines]
        rw [hj]
        have hlen : o' + (0 + ln0.length + 1) = (ln0 ++ ['\n']).length + o' := by
          simp [List.length_append]
          omega
        rw [hlen, List.drop_append]
        exact hpre

theorem indexOfSub_le_of_isPrefixOf_drop (sym l : List Char) (k : ℕ)
    (h : sym.isPrefixOf (l.drop k)) :
    ∃ i, i ≤ k ∧ indexOfSub sym l = some i := by
  induction l generalizing k with
  | nil =>
      rcases sym with _ | ⟨c, t⟩
      · exact ⟨0, Nat.zero_le _, by simp [indexOfSub]⟩
      · rw [List.drop_nil] at h
        simp [List.isPrefixOf] at h
  | cons c t ih =>
      cases k with
      | zero =>
          rw [List.drop_zero] at h
          exact ⟨0, Nat.le_refl 0, by simp [indexOfSub, h]⟩
      | succ k' =>
          by_cases hp : sym.isPrefixOf (c :: t)
          · exact ⟨0, Nat.zero_le _, by simp [indexOfSub, hp]⟩
          · rw [List.drop_succ_cons] at h
            obtain ⟨i, hi, heq⟩ := ih k' h
            exact ⟨i + 1, Nat.succ_le_succ hi, by simp [indexOfSub, hp, heq]⟩

theorem firstArtifactLineStart_none_iff (L : List (List Char)) (off : ℕ) :
    firstArtifactLineStart L off = none ↔ L.find? isArtifactLine = none := by
  induction L generalizing off with
  | nil => simp [firstArtifactLineStart]
  | cons ln ls ih =>
      by_cases h : isArtifactLine ln = true
      · simp [firstArtifactLineStart, List.find?, h]
      · simp [firstArtifactLineStart, List.find?, h, ih]

theorem codeCutIndex_le_specCutIndex (r : List Char) :
    codeCutIndex r ≤ specCutIndex r := by
  unfold codeCutIndex specCutIndex
  rcases hs : firstArtifactLineStart (splitLines r) 0 with _ | o
  · have hf := (firstArtifactLineStart_none_iff (splitLines r) 0).mp hs
    simp only [hs, hf]
    exact Nat.le_refl _
  · obtain ⟨ln, hfind, hpre⟩ := firstArtifactLineStart_isPrefix (splitLines r) o hs
    rw [joinLines_splitLines] at hpre
    obtain ⟨i, hio, hidx⟩ := indexOfSub_le_of_isPrefixOf_drop ln r o hpre
    simp only [hs, hfind, hidx]
    exact le_min (min_le_left _ _) (le_trans (min_le_right _ _) hio)

/-- C9 counterexample: on "x- a\n- a" the first list-looking line is
"- a", which begins at position 5, but its text already occurs at
position 1 inside the first line; the source cuts at 1 and returns "x",
while the claim's description cuts at the line itself and returns
"x- a". -/
theorem sanitize_linecut_counterexample :
    sanitizeAssistantResponse ("x- a\n- a".toList) = "x".toList ∧
    sanitizeSpecified ("x- a\n- a".toList) = "x- a".toList ∧
    ("x".toList : List Char) ≠ "x- a".toList := by
  refine ⟨by decide, by decide, by decide⟩

/-- C9 amended: the sanitizer removes the citation markers and trailing
references and truncates at the cut index the source computes; that
index never exceeds the spec's first-artifact position (the code may
only cut earlier, namely at the first occurrence of the artifact line's
text), and the two sanitizers agree whenever the indices coincide — in
particular whenever no line looks like a list or table row.  `getResponse`
returns the sanitized text of the latest assistant message of a
completed run. -/
theorem sanitize_response_amended :
    (∀ r : List Char,
      codeCutIndex (refsStripped r) ≤ specCutIndex (refsStripped r)) ∧
    (∀ r : List Char,
      codeCutIndex (refsStripped r) = specCutIndex (refsStripped r) →
      sanitizeAssistantResponse r = sanitizeSpecified r) ∧
    (∀ r : List Char,
      (splitLines (refsStripped r)).find? isArtifactLine = none →
      sanitizeAssistantResponse r = sanitizeSpecified r) ∧
    (∀ (completed : Bool) (messages : List AssistantMessage) (m : AssistantMessage),
      completed = true → messages.find? (fun m => m.isAssistant) = some m →
      m.isText = true →
      getResponse completed messages = sanitizeAssistantResponse m.text) := by
  refine ⟨?_, ?_, ?_, ?_⟩
  · intro r
    exact codeCutIndex_le_specCutIndex (refsStripped r)
  · intro r h
    unfold sanitizeAssistantResponse sanitizeSpecified
    rw [h]
  · intro r h
    unfold sanitizeAssistantResponse sanitizeSpecified codeCutIndex specCutIndex
    rw [h, (firstArtifactLineStart_none_iff (splitLines (refsStripped r)) 0).mpr h]
  · intro completed messages m hc hfind htext
    simp [getResponse, hc, hfind, htext]

end Heygen
